import Mathlib

/-!
# Verification of the postflop-solver core

The repository's public surface (`src/lib.rs`) is a facade re-exporting the
core modules (`bet_size`, `game`, `interpreter`, `solver`, ...), whose sources
are not included here; only the facade with its documented usage example is.
Following the specification (sections 3-7), this file gives a shallow
embedding of the data model and the operations of the core, and proves the
specification's testable properties against it.  Chip amounts are embedded as
natural numbers, fractional thresholds and numeric storage as rationals.
-/

namespace PostflopSolver

/-- Modelled from the spec: a card is an integer identifier in a fixed small
range (rank × 4 + suit convention).  `Td = 33`, `9d = 29`, `6h = 18`. -/
abbrev Card := Nat

/-- Modelled from the spec: the sentinel "not dealt" value for the optional
turn and river cards of a `GameConfig`. -/
def NOT_DEALT : Card := 52

/-- Modelled from the spec: an action at a decision node is one of
fold / check / call / bet(amount) / raise(amount) / all-in(amount). -/
inductive Action where
  | Fold : Action
  | Check : Action
  | Call : Action
  | Bet : Nat → Action
  | Raise : Nat → Action
  | AllIn : Nat → Action
deriving DecidableEq

/-- Modelled from the spec (§4.2): a candidate bet size is a pot-fraction
percentage, a fixed chip amount, or an explicit all-in marker. -/
inductive BetSize where
  | PotRelative : Nat → BetSize
  | Fixed : Nat → BetSize
  | AllInSize : BetSize
deriving DecidableEq

/-- Modelled from the spec (§4.2): turn a sizing directive into a concrete
chip amount given the current pot and the remaining stack. -/
def betAmount (pot stack : Nat) (b : BetSize) : Nat :=
  match b with
  | BetSize.PotRelative pct => pot * pct / 100
  | BetSize.Fixed a => a
  | BetSize.AllInSize => stack

/-- Modelled from the spec (§4.1, §4.2): the ordered action list of a decision
node.  `pot` is the pot size if the acting player were to call (equal to the
current pot when no bet is faced), `stack` the acting player's remaining
effective stack for this street, `facing` the amount needed to call.  When no
bet is faced the list is check followed by the configured bet sizes (positive
and at most the stack, deduplicated, in order); facing a bet it is fold, call,
then the configured raise sizes capped by the remaining stack.  An all-in
option is appended when the largest requested size is within the
`add_all_in_threshold` multiple of the remaining stack; a size leaving less
than the `force_all_in_threshold` fraction of the pot behind collapses to
all-in.  The spec's design note leaves the exact collapsing policy open; the
thresholds are modelled as stated in §3 and do not fire in the documented
example scenario.  Each threshold is an exact fraction given as a
(numerator, denominator) pair, so that `stack ≤ addT * maxSize` is expressed
as `stack * addT.2 ≤ addT.1 * maxSize`. -/
def availableActionsModel (pot stack facing : Nat) (sizes : List BetSize)
    (addT forceT : Nat × Nat) : List Action :=
  if facing = 0 then
    let amts := ((sizes.map (betAmount pot stack)).filter
      (fun a => decide (0 < a) && decide (a ≤ stack))).eraseDups
    let maxA := amts.foldr max 0
    let amts' := if 0 < maxA ∧ maxA < stack ∧ stack * addT.2 ≤ addT.1 * maxA
      then amts ++ [stack] else amts
    Action.Check :: amts'.map (fun a =>
      if stack ≤ a then Action.AllIn stack
      else if (stack - a) * forceT.2 < forceT.1 * pot then Action.AllIn stack
      else Action.Bet a)
  else
    let amts := (((sizes.map (fun b => facing + betAmount pot (stack - facing) b)).filter
      (fun r => decide (facing < r))).map (fun r => min r stack)).eraseDups
    let maxR := amts.foldr max 0
    let amts' := if 0 < maxR ∧ maxR < stack ∧ stack * addT.2 ≤ addT.1 * maxR
      then amts ++ [stack] else amts
    Action.Fold :: Action.Call :: amts'.map (fun r =>
      if stack ≤ r then Action.AllIn stack
      else if (stack - r) * forceT.2 < forceT.1 * pot then Action.AllIn stack
      else Action.Raise r)

/-- Modelled from the spec: the three postflop betting rounds. -/
inductive Street where
  | flop : Street
  | turn : Street
  | river : Street
deriving DecidableEq

/-- Modelled from the spec (§3): a range is a mapping from private hands
(unordered pairs of distinct cards) to non-negative weights. -/
abbrev RangeW := List ((Card × Card) × ℚ)

/-- Modelled from the spec (§3): the immutable game configuration.  Field
names follow the public surface shown in `src/lib.rs`.  Each pair field is
(out-of-position player, in-position player). -/
structure GameConfig where
  flop : List Card
  turn : Card
  river : Card
  starting_pot : Nat
  effective_stack : Nat
  range : RangeW × RangeW
  flop_bet_sizes : List BetSize × List BetSize
  turn_bet_sizes : List BetSize × List BetSize
  river_bet_sizes : List BetSize × List BetSize
  add_all_in_threshold : Nat × Nat
  force_all_in_threshold : Nat × Nat
  adjust_last_two_bet_sizes : Bool

/-- Bet-size candidates of a player on a street. -/
def GameConfig.sizesFor (cfg : GameConfig) (st : Street) (pl : Nat) : List BetSize :=
  let p := match st with
    | Street.flop => cfg.flop_bet_sizes
    | Street.turn => cfg.turn_bet_sizes
    | Street.river => cfg.river_bet_sizes
  if pl = 0 then p.1 else p.2

/-- Modelled from the spec (§3): a tree node is a player decision node (owning
player, ordered list of actions each paired with its exclusively owned child),
a chance node (one child per eligible card, keyed by the card identifier), or
a terminal node (fold, recording the folding player, or showdown, recording
the pot). -/
inductive Node where
  | player : Nat → List (Action × Node) → Node
  | chance : List (Card × Node) → Node
  | terminalFold : Nat → Node
  | terminalShowdown : Nat → Node

/-- Cards still eligible to be dealt on top of the given board. -/
def deck (board : List Card) : List Card :=
  (List.range 52).filter (fun c => decide (c ∉ board))

/-- Street following the given one, with the river mapped to itself. -/
def nextStreet : Street → Street
  | Street.flop => Street.turn
  | _ => Street.river

/-- The turn (resp. river) card pre-specified by the configuration, when the
street just closed is the flop (resp. turn). -/
def GameConfig.presetCard (cfg : GameConfig) : Street → Card
  | Street.flop => cfg.turn
  | _ => cfg.river

/-- Modelled from the spec (§4.1): once betting on street `st` closes with no
fold, either the river just closed (showdown terminal) or the next street
begins: through a chance node with one child per eligible card, or — when the
next card is pre-specified in the configuration — directly at the next
street's first decision node.  `next` builds a street's first decision node
from the street, the extended board, the pot and the remaining stack. -/
def afterStreet (cfg : GameConfig) (st : Street) (board : List Card)
    (pot stack : Nat) (next : Street → List Card → Nat → Nat → Node) : Node :=
  match st with
  | Street.river => Node.terminalShowdown pot
  | _ =>
    let ns := nextStreet st
    let pre := cfg.presetCard st
    if pre ≠ NOT_DEALT then next ns (board ++ [pre]) pot stack
    else Node.chance ((deck board).map (fun c => (c, next ns (board ++ [c]) pot stack)))

/-- Modelled from the spec (§4.1): recursive street-by-street construction of
the betting tree.  `pot0` is the pot at the start of the street, `stack` the
effective stack remaining behind at the start of the street, `bMe`/`bOpp` the
chips committed this street by the acting player and the opponent, `pl` the
acting player (0 = out of position, acting first on every street).  The fuel
argument only bounds recursion depth; it is chosen large enough that it is
never exhausted on a well-formed configuration. -/
def buildStreet (cfg : GameConfig) :
    Nat → Street → List Card → Nat → Nat → Nat → Nat → Nat → Node
  | 0, _, _, pot0, _, _, _, _ => Node.terminalShowdown pot0
  | fuel + 1, st, board, pot0, stack, bMe, bOpp, pl =>
    let facing := bOpp - bMe
    let potIfCall := pot0 + 2 * bOpp
    let acts := availableActionsModel potIfCall stack facing (cfg.sizesFor st pl)
      cfg.add_all_in_threshold cfg.force_all_in_threshold
    Node.player pl (acts.map (fun a =>
      (a, match a with
        | Action.Fold => Node.terminalFold pl
        | Action.Check =>
          if pl = 0 then buildStreet cfg fuel st board pot0 stack 0 0 1
          else afterStreet cfg st board pot0 stack
            (fun st' b p s => buildStreet cfg fuel st' b p s 0 0 0)
        | Action.Call => afterStreet cfg st board (pot0 + 2 * bOpp) (stack - bOpp)
            (fun st' b p s => buildStreet cfg fuel st' b p s 0 0 0)
        | Action.Bet b => buildStreet cfg fuel st board pot0 stack bOpp b (1 - pl)
        | Action.Raise r => buildStreet cfg fuel st board pot0 stack bOpp r (1 - pl)
        | Action.AllIn a => buildStreet cfg fuel st board pot0 stack bOpp a (1 - pl))))

/-- Depth bound for tree construction; sufficient for every betting line, as
raise sizes grow geometrically towards the stack. -/
def buildFuel : Nat := 64

/-- Modelled from the spec (§4.1): the root of the tree of a validated
configuration — the out-of-position player's first decision on the flop. -/
def buildTree (cfg : GameConfig) : Node :=
  buildStreet cfg buildFuel Street.flop cfg.flop cfg.starting_pot
    cfg.effective_stack 0 0 0

/-- Board cards of a configuration: the flop plus any pre-specified turn and
river card. -/
def GameConfig.board (cfg : GameConfig) : List Card :=
  cfg.flop ++ (if cfg.turn ≠ NOT_DEALT then [cfg.turn] else [])
    ++ (if cfg.river ≠ NOT_DEALT then [cfg.river] else [])

/-- Modelled from the spec (§4.3): zero out the weight of every hand that
conflicts with a board card. -/
def zeroConflicts (board : List Card) (r : RangeW) : RangeW :=
  r.map (fun h => if h.1.1 ∈ board ∨ h.1.2 ∈ board then (h.1, 0) else h)

/-- Total weight of a range after board-conflict removal. -/
def rangeWeight (board : List Card) (r : RangeW) : ℚ :=
  ((zeroConflicts board r).map (fun h => h.2)).sum

/-- Modelled from the spec (§4.1, §7): configuration errors, detected before
any tree is built. -/
inductive ConfigError where
  | emptyRange : ConfigError
deriving DecidableEq

/-- Modelled from the spec (§3, §4.4): a game instance owns the built tree and
the solver storage; storage only becomes valid after `allocate_memory`. -/
structure PostFlopGame where
  tree : Node
  allocated : Bool
  compressed : Bool
  storage : List ℚ

/-- Modelled from the spec (§4.1, §4.3): build a game from a configuration.
A range that is empty after removing board conflicts (total weight zero) is a
configuration error, reported before any tree is built; otherwise the tree is
built and the game produced with storage not yet allocated. -/
def withConfig (cfg : GameConfig) : Except ConfigError PostFlopGame :=
  if rangeWeight cfg.board cfg.range.1 = 0 ∨ rangeWeight cfg.board cfg.range.2 = 0 then
    Except.error ConfigError.emptyRange
  else
    Except.ok { tree := buildTree cfg, allocated := false,
                compressed := false, storage := [] }

/-- Number of storage slots of the tree: one per action of each decision node
(the per-hand dimension is uniform and omitted). -/
def storageSize : Node → Nat
  | Node.player _ edges => edges.length +
      (edges.attach.map (fun e => storageSize e.1.2)).sum
  | Node.chance pairs => (pairs.attach.map (fun e => storageSize e.1.2)).sum
  | Node.terminalFold _ => 0
  | Node.terminalShowdown _ => 0
decreasing_by
  all_goals
    obtain ⟨⟨a, n⟩, hm⟩ := e
    have h := List.sizeOf_lt_of_mem hm
    simp only [Prod.mk.sizeOf_spec] at h
    simp only [Node.player.sizeOf_spec, Node.chance.sizeOf_spec]
    omega

/-- Modelled from the spec (§4.4): `allocate_memory` performs the actual
allocation, zero-initializing the regret/strategy arrays; the buffers only
become valid for solving after this call. -/
def allocate_memory (g : PostFlopGame) (compressed : Bool) : PostFlopGame :=
  { g with allocated := true, compressed := compressed,
           storage := List.replicate (storageSize g.tree) 0 }

/-- Modelled from the spec (§7): state-sequencing errors of the solver. -/
inductive SolverError where
  | unallocatedState : SolverError
deriving DecidableEq

/-- Modelled from the spec (§4.5) and the usage example in `src/lib.rs`:
exploitability is computed every `checkInterval` iterations. -/
def checkInterval : Nat := 10

/-- Modelled from the spec (§4.5) and the manual solving loop documented in
`src/lib.rs`: run up to `n` more solver iterations starting at iteration
index `i`, checking exploitability after every iteration whose 1-based index
is a multiple of `checkInterval` and stopping as soon as a check finds it at
or below `target`.  Returns the final state and the number of iterations
performed.  `step` is one `solve_step` and `expl` is
`compute_exploitability`, kept abstract since their sources are not part of
the public surface. -/
def solveAux {σ : Type} (step : σ → σ) (expl : σ → ℚ) (target : ℚ) :
    Nat → Nat → σ → σ × Nat
  | 0, _, s => (s, 0)
  | n + 1, i, s =>
    let s' := step s
    if (i + 1) % checkInterval = 0 ∧ expl s' ≤ target then (s', 1)
    else
      let r := solveAux step expl target n (i + 1) s'
      (r.1, r.2 + 1)

/-- Number of iterations performed by the solving loop. -/
def solveCount {σ : Type} (step : σ → σ) (expl : σ → ℚ) (target : ℚ)
    (maxIter : Nat) (s : σ) : Nat :=
  (solveAux step expl target maxIter 0 s).2

/-- Modelled from the spec (§6, §4.5): the convenience `solve` entry point.
Solving a game whose storage has not been allocated is an unallocated-state
error; otherwise the iteration loop runs on the storage and the final
exploitability is returned. -/
def solve (step : List ℚ → List ℚ) (expl : List ℚ → ℚ) (g : PostFlopGame)
    (maxIter : Nat) (target : ℚ) : Except SolverError (PostFlopGame × ℚ) :=
  if g.allocated then
    let r := solveAux step expl target maxIter 0 g.storage
    Except.ok ({ g with storage := r.1 }, expl r.1)
  else Except.error SolverError.unallocatedState

/-- Modelled from the spec (§4.5, §7): renormalize a per-hand vector to sum to
one; a vector whose total weight is zero falls back to the uniform
distribution over the node's actions, silently. -/
def normalizeStrategy (xs : List ℚ) : List ℚ :=
  let s := xs.sum
  if s = 0 then xs.map (fun _ => 1 / (xs.length : ℚ))
  else xs.map (fun x => x / s)

/-- Modelled from the spec (§4.5): the regret-matched current strategy of one
hand — each action's probability proportional to its non-negative accumulated
regret, uniform when all clamped regrets sum to zero. -/
def regretMatching (regrets : List ℚ) : List ℚ :=
  normalizeStrategy (regrets.map (fun r => max r 0))

/-- Modelled from the spec (§4.5): `finalize` converts the accumulated
cumulative strategies (one row per decision-node hand) in place into
normalized, directly playable strategies. -/
def finalize (strategies : List (List ℚ)) : List (List ℚ) :=
  strategies.map normalizeStrategy

/-- Magnitude bound of the small signed integers of compressed storage. -/
def compressedBound : ℤ := 32767

/-- Modelled from the spec (§3, §4.4): compressed storage quantizes a value to
a small signed integer using the node's scale factor. -/
def encodeCompressed (scale v : ℚ) : ℤ :=
  max (-compressedBound) (min compressedBound (round (v / scale)))

/-- Modelled from the spec (§3): compressed values decode as
value = stored integer × scale. -/
def decodeCompressed (scale : ℚ) (n : ℤ) : ℚ := (n : ℚ) * scale

/-- Modelled from the spec (§3, §4.4): full-precision storage stores the
numeric value itself. -/
def encodeFull (v : ℚ) : ℚ := v

/-- Modelled from the spec (§3, §4.4): full-precision storage reads back the
stored value unchanged. -/
def decodeFull (v : ℚ) : ℚ := v

/-- Modelled from the spec (§7): state-sequencing errors of the navigator —
an action or card index outside the current node's arity, or advancing past a
terminal node. -/
inductive PlayError where
  | invalidIndex : PlayError
  | terminalNode : PlayError
deriving DecidableEq

/-- Modelled from the spec (§4.7): the navigator's state — the current node
(initialized to the root), the path of indices played so far, the cached
normalized weights, and the minimum-weight reporting threshold. -/
structure Interpreter where
  node : Node
  path : List Nat
  weights : List ℚ
  threshold : ℚ

/-- Modelled from the spec (§4.7, §6): construct a navigator positioned at
the root of a finalized game. -/
def Interpreter.new (g : PostFlopGame) (threshold : ℚ) : Interpreter :=
  { node := g.tree, path := [], weights := [], threshold := threshold }

/-- Child of a chance node for a given card identifier, if that card may be
dealt there. -/
def lookupCard : List (Card × Node) → Nat → Option Node
  | [], _ => none
  | p :: ps, c => if p.1 = c then some p.2 else lookupCard ps c

/-- Bitmask with one bit set per card dealable at a chance node. -/
def possibleCardsMask : List (Card × Node) → Nat
  | [] => 0
  | p :: ps => (1 <<< p.1) ||| possibleCardsMask ps

/-- Modelled from the spec (§4.7): the ordered action list of the current
node; empty at chance and terminal nodes. -/
def Interpreter.available_actions (it : Interpreter) : List Action :=
  match it.node with
  | Node.player _ edges => edges.map Prod.fst
  | _ => []

/-- Modelled from the spec (§4.7): the bitmask of cards that may legally be
dealt at the current chance node; zero elsewhere. -/
def Interpreter.possible_cards (it : Interpreter) : Nat :=
  match it.node with
  | Node.chance pairs => possibleCardsMask pairs
  | _ => 0

/-- Modelled from the spec (§4.7): whether the current node is a chance
node. -/
def Interpreter.is_chance_node (it : Interpreter) : Bool :=
  match it.node with
  | Node.chance _ => true
  | _ => false

/-- Player to act at the current node, if it is a decision node. -/
def Interpreter.current_player (it : Interpreter) : Option Nat :=
  match it.node with
  | Node.player pl _ => some pl
  | _ => none

/-- Modelled from the spec (§4.7, §7) and the usage example in `src/lib.rs`:
advance to the child selected by `idx` — an action index at a decision node,
the card's integer identifier at a chance node.  An index outside the node's
arity, a card that may not be dealt, or any index at a terminal node is a
sequencing error, reported without mutating the navigator's state. -/
def Interpreter.play (it : Interpreter) (idx : Nat) : Option PlayError × Interpreter :=
  match it.node with
  | Node.player _ edges =>
    if hlt : idx < edges.length then
      (none, { it with node := (edges.get ⟨idx, hlt⟩).2, path := it.path ++ [idx] })
    else (some PlayError.invalidIndex, it)
  | Node.chance pairs =>
    match lookupCard pairs idx with
    | some child => (none, { it with node := child, path := it.path ++ [idx] })
    | none => (some PlayError.invalidIndex, it)
  | Node.terminalFold _ => (some PlayError.terminalNode, it)
  | Node.terminalShowdown _ => (some PlayError.terminalNode, it)

/-- The configuration of the documented scenario: board `Td9d6h` (cards 33,
29, 18), pot 200, effective stack 900, 50%-pot bet sizes for both players on
every street, thresholds as in the usage example of `src/lib.rs`.  The ranges
stand in for the example's parsed range strings (range parsing is an external
collaborator); they hold hands that do not conflict with the board. -/
def scenarioConfig : GameConfig :=
  { flop := [33, 29, 18]
    turn := NOT_DEALT
    river := NOT_DEALT
    starting_pot := 200
    effective_stack := 900
    range := ([((51, 47), 1)], [((50, 46), 1)])
    flop_bet_sizes := ([BetSize.PotRelative 50], [BetSize.PotRelative 50])
    turn_bet_sizes := ([BetSize.PotRelative 50], [BetSize.PotRelative 50])
    river_bet_sizes := ([BetSize.PotRelative 50], [BetSize.PotRelative 50])
    add_all_in_threshold := (6, 5)
    force_all_in_threshold := (1, 10)
    adjust_last_two_bet_sizes := true }

/-- The game built from the scenario configuration. -/
def scenarioGame : PostFlopGame :=
  { tree := buildTree scenarioConfig, allocated := false,
    compressed := false, storage := [] }

lemma sum_map_div (xs : List ℚ) (s : ℚ) :
    (xs.map (fun x => x / s)).sum = xs.sum / s := by
  induction xs with
  | nil => simp
  | cons a as ih => simp only [List.map_cons, List.sum_cons, ih]; ring

lemma sum_map_const_q (xs : List ℚ) (c : ℚ) :
    (xs.map (fun _ => c)).sum = (xs.length : ℚ) * c := by
  induction xs with
  | nil => simp
  | cons a as ih => simp only [List.map_cons, List.sum_cons, ih, List.length_cons]; push_cast; ring

lemma normalizeStrategy_length (xs : List ℚ) :
    (normalizeStrategy xs).length = xs.length := by
  unfold normalizeStrategy
  by_cases h : xs.sum = 0 <;> simp [h]

lemma normalizeStrategy_sum (xs : List ℚ) (h : xs ≠ []) :
    (normalizeStrategy xs).sum = 1 := by
  have hlen : (xs.length : ℚ) ≠ 0 :=
    Nat.cast_ne_zero.mpr (List.length_pos.mpr h).ne'
  unfold normalizeStrategy
  by_cases hs : xs.sum = 0
  · simp only [hs, if_true, sum_map_const_q]
    field_simp
  · simp only [hs, if_false, sum_map_div]
    field_simp

lemma normalizeStrategy_idem (xs : List ℚ) :
    normalizeStrategy (normalizeStrategy xs) = normalizeStrategy xs := by
  rcases eq_or_ne xs [] with h | h
  · subst h; simp [normalizeStrategy]
  · have hs : (normalizeStrategy xs).sum = 1 := normalizeStrategy_sum xs h
    conv_lhs => rw [normalizeStrategy]
    simp [hs]

/-- C5: at every decision node, for every private hand, the regret-matched
strategy probabilities over the node's actions sum to 1 (one probability per
action); when the hand's clamped regrets sum to zero, the strategy is the
uniform distribution over the node's actions.  `regretMatching` is a total
function: the degenerate case produces the uniform fallback silently instead
of an error. -/
theorem claim_c5 (regrets : List ℚ) (h : regrets ≠ []) :
    (regretMatching regrets).sum = 1 ∧
    (regretMatching regrets).length = regrets.length ∧
    ((regrets.map (fun r => max r 0)).sum = 0 →
      regretMatching regrets = regrets.map (fun _ => 1 / (regrets.length : ℚ))) := by
  have hmap : regrets.map (fun r => max r 0) ≠ [] := by
    simpa using h
  refine ⟨?_, ?_, ?_⟩
  · exact normalizeStrategy_sum _ hmap
  · rw [regretMatching, normalizeStrategy_length, List.length_map]
  · intro hz
    rw [regretMatching, normalizeStrategy]
    simp only [hz, if_true, List.length_map, List.map_map]
    rfl

/-- Witness for C5 at the concrete regret vector `[1, -2]`. -/
theorem claim_c5_witness :
    (regretMatching [(1 : ℚ), -2]).sum = 1 ∧
    (regretMatching [(1 : ℚ), -2]).length = 2 ∧
    (([(1 : ℚ), -2].map (fun r => max r 0)).sum = 0 →
      regretMatching [(1 : ℚ), -2] = [(1 : ℚ), -2].map (fun _ => 1 / 2)) := by
  have h := claim_c5 [(1 : ℚ), -2] (by simp)
  simpa using h

/-- C9: `finalize` is idempotent — applied to the strategy table a second
time, it leaves the normalized average strategy of every decision node
unchanged. -/
theorem claim_c9 (strategies : List (List ℚ)) :
    finalize (finalize strategies) = finalize strategies := by
  unfold finalize
  rw [List.map_map]
  exact List.map_congr_left (fun a _ => normalizeStrategy_idem a)

/-- Witness for C9 at a concrete two-node strategy table. -/
theorem claim_c9_witness :
    finalize (finalize [[(1 : ℚ), 3], [0, 0]]) = finalize [[(1 : ℚ), 3], [0, 0]] :=
  claim_c9 [[(1 : ℚ), 3], [0, 0]]

/-- C8: in compressed storage, encoding a value and decoding the stored small
integer (decoded value = stored integer × the node's scale factor) introduces
an error of at most the node's scale factor, for any value within the usable
dynamic range; full-precision storage round-trips exactly, with zero
quantization error. -/
theorem claim_c8 (scale v : ℚ) (h1 : 0 < scale)
    (h2 : |v| ≤ (compressedBound : ℚ) * scale) :
    |decodeCompressed scale (encodeCompressed scale v) - v| ≤ scale ∧
    decodeFull (encodeFull v) = v := by
  refine ⟨?_, rfl⟩
  have hB : ((compressedBound : ℤ) : ℚ) = 32767 := by norm_num [compressedBound]
  set x : ℚ := v / scale with hx
  have hxb : |x| ≤ 32767 := by
    rw [hx, abs_div, abs_of_pos h1, div_le_iff₀ h1]
    calc |v| ≤ (compressedBound : ℚ) * scale := h2
    _ = 32767 * scale := by rw [hB]
  have hround : |x - round x| ≤ 1 / 2 := abs_sub_round x
  have habs := abs_le.mp hxb
  have habs' := abs_le.mp hround
  have hlow : -compressedBound ≤ round x := by
    have h32 : ((-32768 : ℤ) : ℚ) < (round x : ℚ) := by push_cast; linarith
    have h32' := Int.cast_lt.mp h32
    show -(32767 : ℤ) ≤ round x
    omega
  have hhigh : round x ≤ compressedBound := by
    have h32 : (round x : ℚ) < ((32768 : ℤ) : ℚ) := by push_cast; linarith
    have h32' := Int.cast_lt.mp h32
    show round x ≤ (32767 : ℤ)
    omega
  have hclamp : encodeCompressed scale v = round x := by
    rw [encodeCompressed, ← hx]
    rw [min_eq_right hhigh, max_eq_right hlow]
  rw [decodeCompressed, hclamp]
  have hv : v = x * scale := by field_simp [hx]
  calc |(round x : ℚ) * scale - v| = |((round x : ℚ) - x) * scale| := by rw [hv]; ring_nf
  _ = |(round x : ℚ) - x| * scale := by rw [abs_mul, abs_of_pos h1]
  _ ≤ (1 / 2) * scale := by
      have : |(round x : ℚ) - x| ≤ 1 / 2 := by rw [abs_sub_comm]; exact hround
      nlinarith
  _ ≤ scale := by linarith

/-- Witness for C8 at scale 1 and value 3/2. -/
theorem claim_c8_witness :
    |decodeCompressed 1 (encodeCompressed 1 (3 / 2)) - 3 / 2| ≤ 1 ∧
    decodeFull (encodeFull (3 / 2)) = 3 / 2 :=
  claim_c8 1 (3 / 2) (by norm_num)
    (by rw [show ((compressedBound : ℤ) : ℚ) = 32767 by norm_num [compressedBound]]
        rw [abs_le]; constructor <;> norm_num)

lemma solveAux_count_le {σ : Type} (step : σ → σ) (expl : σ → ℚ) (t : ℚ) :
    ∀ (n i : Nat) (s : σ), (solveAux step expl t n i s).2 ≤ n := by
  intro n
  induction n with
  | zero => intro i s; simp [solveAux]
  | succ n ih =>
    intro i s
    by_cases hc : (i + 1) % checkInterval = 0 ∧ expl (step s) ≤ t
    · simp [solveAux, hc]
    · simp only [solveAux, if_neg hc]
      exact Nat.succ_le_succ (ih (i + 1) (step s))

lemma solveAux_fst {σ : Type} (step : σ → σ) (expl : σ → ℚ) (t : ℚ) :
    ∀ (n i : Nat) (s : σ),
      (solveAux step expl t n i s).1 = step^[(solveAux step expl t n i s).2] s := by
  intro n
  induction n with
  | zero => intro i s; simp [solveAux]
  | succ n ih =>
    intro i s
    by_cases hc : (i + 1) % checkInterval = 0 ∧ expl (step s) ≤ t
    · simp [solveAux, hc]
    · simp only [solveAux, if_neg hc]
      rw [Function.iterate_succ_apply]
      exact ih (i + 1) (step s)

lemma solveAux_earlier {σ : Type} (step : σ → σ) (expl : σ → ℚ) (t : ℚ) :
    ∀ (n i : Nat) (s : σ) (j : Nat), 0 < j → j < (solveAux step expl t n i s).2 →
      (i + j) % checkInterval = 0 → t < expl (step^[j] s) := by
  intro n
  induction n with
  | zero => intro i s j hj hlt _; simp [solveAux] at hlt
  | succ n ih =>
    intro i s j hj hlt hmod
    by_cases hc : (i + 1) % checkInterval = 0 ∧ expl (step s) ≤ t
    · simp [solveAux, hc] at hlt; omega
    · simp only [solveAux, if_neg hc] at hlt
      rcases Nat.lt_or_ge j 2 with h2 | h2
      · have hj1 : j = 1 := by omega
        subst hj1
        have hns : ¬ expl (step s) ≤ t := fun hle => hc ⟨by simpa using hmod, hle⟩
        simpa using lt_of_not_le hns
      · have hmod' : (i + 1 + (j - 1)) % checkInterval = 0 := by
          rw [show i + 1 + (j - 1) = i + j by omega]; exact hmod
        have h := ih (i + 1) (step s) (j - 1) (by omega) (by omega) hmod'
        rwa [← Function.iterate_succ_apply, Nat.succ_eq_add_one,
          show j - 1 + 1 = j by omega] at h

lemma solveAux_stop {σ : Type} (step : σ → σ) (expl : σ → ℚ) (t : ℚ) :
    ∀ (n i : Nat) (s : σ), (solveAux step expl t n i s).2 < n →
      0 < (solveAux step expl t n i s).2 ∧
      (i + (solveAux step expl t n i s).2) % checkInterval = 0 ∧
      expl (step^[(solveAux step expl t n i s).2] s) ≤ t := by
  intro n
  induction n with
  | zero => intro i s h; simp [solveAux] at h
  | succ n ih =>
    intro i s h
    by_cases hc : (i + 1) % checkInterval = 0 ∧ expl (step s) ≤ t
    · refine ⟨?_, ?_, ?_⟩ <;> simp [solveAux, hc]
    · simp only [solveAux, if_neg hc] at h ⊢
      have h' : (solveAux step expl t n (i + 1) (step s)).2 < n := by omega
      obtain ⟨h1, h2, h3⟩ := ih (i + 1) (step s) h'
      refine ⟨by omega, ?_, ?_⟩
      · rw [show i + ((solveAux step expl t n (i + 1) (step s)).2 + 1)
            = i + 1 + (solveAux step expl t n (i + 1) (step s)).2 by omega]
        exact h2
      · rw [Function.iterate_succ_apply]
        exact h3

lemma solveAux_first {σ : Type} (step : σ → σ) (expl : σ → ℚ) (t : ℚ) :
    ∀ (n i : Nat) (s : σ) (j : Nat), 0 < j → (i + j) % checkInterval = 0 → j ≤ n →
      expl (step^[j] s) ≤ t → (solveAux step expl t n i s).2 ≤ j := by
  intro n
  induction n with
  | zero => intro i s j _ _ _ _; simp [solveAux]
  | succ n ih =>
    intro i s j hj hmod hjn hle
    by_cases hc : (i + 1) % checkInterval = 0 ∧ expl (step s) ≤ t
    · have h1 : (solveAux step expl t (n + 1) i s).2 = 1 := by simp [solveAux, hc]
      omega
    · simp only [solveAux, if_neg hc]
      rcases Nat.lt_or_ge j 2 with h2 | h2
      · exfalso
        have hj1 : j = 1 := by omega
        subst hj1
        exact hc ⟨by simpa using hmod, by simpa using hle⟩
      · have h := ih (i + 1) (step s) (j - 1) (by omega)
          (by rw [show i + 1 + (j - 1) = i + j by omega]; exact hmod) (by omega)
          (by rw [← Function.iterate_succ_apply, Nat.succ_eq_add_one,
                show j - 1 + 1 = j by omega]; exact hle)
        omega

lemma expl_iterate_le {σ : Type} (step : σ → σ) (expl : σ → ℚ)
    (hm : ∀ x, expl (step x) ≤ expl x) : ∀ (k : Nat) (s : σ), expl (step^[k] s) ≤ expl s := by
  intro k
  induction k with
  | zero => intro s; simp
  | succ k ih =>
    intro s
    rw [Function.iterate_succ_apply']
    exact le_trans (hm _) (ih s)

/-- C3: the solving loop performs at most `maxIter` iterations and stops at
the first periodic exploitability check (performed every `checkInterval`
iterations) at which the computed exploitability is at or below the target:
every earlier check saw exploitability above the target, an early stop
happens exactly at a passing check, the loop never runs past the first
passing check inside the iteration budget, and the final state is the
iterate of the step function at the performed count.  In particular, when the
per-iteration exploitability never increases and the target exceeds the
exploitability of the starting (uniform) strategy, the loop finishes within
the first check period. -/
theorem claim_c3 {σ : Type} (step : σ → σ) (expl : σ → ℚ) (target : ℚ)
    (maxIter : Nat) (s : σ) :
    solveCount step expl target maxIter s ≤ maxIter ∧
    (solveAux step expl target maxIter 0 s).1
      = step^[solveCount step expl target maxIter s] s ∧
    (∀ j, 0 < j → j % checkInterval = 0 → j < solveCount step expl target maxIter s →
      target < expl (step^[j] s)) ∧
    (solveCount step expl target maxIter s < maxIter →
      solveCount step expl target maxIter s % checkInterval = 0 ∧
      expl (step^[solveCount step expl target maxIter s] s) ≤ target) ∧
    (∀ j, 0 < j → j % checkInterval = 0 → j ≤ maxIter → expl (step^[j] s) ≤ target →
      solveCount step expl target maxIter s ≤ j) ∧
    ((∀ x, expl (step x) ≤ expl x) → expl s < target →
      solveCount step expl target maxIter s ≤ checkInterval) := by
  refine ⟨solveAux_count_le step expl target maxIter 0 s,
    solveAux_fst step expl target maxIter 0 s, ?_, ?_, ?_, ?_⟩
  · intro j hj hmod hlt
    exact solveAux_earlier step expl target maxIter 0 s j hj hlt (by simpa using hmod)
  · intro hlt
    obtain ⟨h1, h2, h3⟩ := solveAux_stop step expl target maxIter 0 s hlt
    exact ⟨by simpa using h2, h3⟩
  · intro j hj hmod hjn hle
    exact solveAux_first step expl target maxIter 0 s j hj (by simpa using hmod) hjn hle
  · intro hm hlt
    rcases Nat.lt_or_ge maxIter checkInterval with hN | hN
    · exact le_trans (solveAux_count_le step expl target maxIter 0 s) (le_of_lt hN)
    · refine solveAux_first step expl target maxIter 0 s checkInterval (by decide)
        (by simp) hN ?_
      exact le_of_lt (lt_of_le_of_lt (expl_iterate_le step expl hm checkInterval s) hlt)

/-- Witness for C3: with an identity step and exploitability already below
the target, the loop finishes within the first check period. -/
theorem claim_c3_witness :
    solveCount (fun x => x) (fun x => x) 5 30 (0 : ℚ) ≤ checkInterval :=
  (claim_c3 (fun x => x) (fun x => x) 5 30 (0 : ℚ)).2.2.2.2.2
    (fun x => le_rfl) (by norm_num)

/-- C4: a built game on which `allocate_memory` has not been called fails
`solve` with an unallocated-state error, whatever the iteration budget and
target; and a game that has been allocated never fails with that error —
allocation must precede solving. -/
theorem claim_c4 (step : List ℚ → List ℚ) (expl : List ℚ → ℚ) (g : PostFlopGame)
    (maxIter : Nat) (target : ℚ) (h : g.allocated = false) :
    solve step expl g maxIter target = Except.error SolverError.unallocatedState ∧
    ∀ c, solve step expl (allocate_memory g c) maxIter target
      ≠ Except.error SolverError.unallocatedState := by
  constructor
  · simp [solve, h]
  · intro c
    simp [solve, allocate_memory]

/-- Witness for C4 at the freshly built scenario game, whose storage is not
allocated. -/
theorem claim_c4_witness :
    solve (fun s => s) (fun _ => 0) scenarioGame 100 1
      = Except.error SolverError.unallocatedState ∧
    ∀ c, solve (fun s => s) (fun _ => 0) (allocate_memory scenarioGame c) 100 1
      ≠ Except.error SolverError.unallocatedState :=
  claim_c4 (fun s => s) (fun _ => 0) scenarioGame 100 1 rfl

/-- C6: a configuration in which a player's range becomes empty after zeroing
the hands that conflict with the board (total remaining weight zero) is
rejected by `withConfig` with a configuration error; no game is produced, so
no tree is ever handed to the caller. -/
theorem claim_c6 (cfg : GameConfig)
    (h : rangeWeight cfg.board cfg.range.1 = 0 ∨ rangeWeight cfg.board cfg.range.2 = 0) :
    withConfig cfg = Except.error ConfigError.emptyRange := by
  rw [withConfig, if_pos h]

/-- A configuration whose out-of-position range holds only the hand `Td9d`,
both cards of which are on the board. -/
def emptyRangeConfig : GameConfig :=
  { scenarioConfig with range := ([((33, 29), 1)], scenarioConfig.range.2) }

/-- Witness for C6: the board-conflicting range is rejected. -/
theorem claim_c6_witness :
    withConfig emptyRangeConfig = Except.error ConfigError.emptyRange :=
  claim_c6 emptyRangeConfig
    (Or.inl (by simp [rangeWeight, zeroConflicts, GameConfig.board,
      emptyRangeConfig, scenarioConfig, NOT_DEALT]))

lemma and_shiftLeft_ne_zero (m c : Nat) :
    m &&& (1 <<< c) ≠ 0 ↔ m.testBit c = true := by
  rw [Nat.shiftLeft_eq, one_mul, Nat.and_two_pow]
  cases h : m.testBit c
  · simp
  · simp [(Nat.two_pow_pos c).ne']

lemma possibleCardsMask_testBit (pairs : List (Card × Node)) (c : Nat) :
    (possibleCardsMask pairs).testBit c = (lookupCard pairs c).isSome := by
  induction pairs with
  | nil => simp [possibleCardsMask, lookupCard]
  | cons p ps ih =>
    rw [possibleCardsMask, lookupCard, Nat.testBit_or, ih]
    by_cases hpc : p.1 = c
    · subst hpc
      simp [Nat.testBit_shiftLeft, Nat.testBit_one_zero]
    · have hbit : Nat.testBit (1 <<< p.1) c = false := by
        rw [Nat.testBit_shiftLeft]
        by_cases hge : c ≥ p.1
        · have hlt : p.1 < c := Nat.lt_of_le_of_ne hge hpc
          have hne : c - p.1 ≠ 0 := Nat.sub_ne_zero_of_lt hlt
          cases htb : Nat.testBit 1 (c - p.1)
          · simp [hge]
          · exact absurd (Nat.testBit_one_eq_true_iff_self_eq_zero.mp htb) hne
        · simp [hge]
      simp [hbit, hpc]

lemma mask_lookup (pairs : List (Card × Node)) (c : Nat) :
    possibleCardsMask pairs &&& (1 <<< c) ≠ 0 ↔ (lookupCard pairs c).isSome = true := by
  rw [and_shiftLeft_ne_zero, possibleCardsMask_testBit]

/-- C7: `play` rejects every out-of-range request with a sequencing error and
returns the interpreter state unchanged (current node position, path and
cached weights): an index at or past the number of available actions at a
decision node, a card outside the legally dealable bitmask at a chance node,
and any index at a terminal node. -/
theorem claim_c7 (it : Interpreter) (idx : Nat) :
    (∀ pl edges, it.node = Node.player pl edges →
      it.available_actions.length ≤ idx →
      it.play idx = (some PlayError.invalidIndex, it)) ∧
    (∀ pairs, it.node = Node.chance pairs →
      it.possible_cards &&& (1 <<< idx) = 0 →
      it.play idx = (some PlayError.invalidIndex, it)) ∧
    (∀ pl, it.node = Node.terminalFold pl →
      it.play idx = (some PlayError.terminalNode, it)) ∧
    (∀ pot, it.node = Node.terminalShowdown pot →
      it.play idx = (some PlayError.terminalNode, it)) := by
  refine ⟨?_, ?_, ?_, ?_⟩
  · intro pl edges hnode hlen
    simp only [Interpreter.available_actions, hnode, List.length_map] at hlen
    simp only [Interpreter.play, hnode]
    rw [dif_neg (by omega : ¬ idx < edges.length)]
  · intro pairs hnode hmask
    simp only [Interpreter.possible_cards, hnode] at hmask
    have hnone : lookupCard pairs idx = none := by
      rcases h : lookupCard pairs idx with _ | child
      · rfl
      · exact absurd ((mask_lookup pairs idx).mpr (by rw [h]; rfl)) (by simp [hmask])
    simp only [Interpreter.play, hnode, hnone]
  · intro pl hnode
    simp only [Interpreter.play, hnode]
  · intro pot hnode
    simp only [Interpreter.play, hnode]

/-- A small hand-made interpreter state positioned at a one-action decision
node, used to witness out-of-range handling. -/
def witnessItPlayer : Interpreter :=
  { node := Node.player 0 [(Action.Check, Node.terminalShowdown 3)],
    path := [], weights := [1], threshold := 0 }

/-- Witness for C7: playing index 1 at a one-action decision node fails and
leaves the state unchanged. -/
theorem claim_c7_witness :
    witnessItPlayer.play 1 = (some PlayError.invalidIndex, witnessItPlayer) :=
  (claim_c7 witnessItPlayer 1).1 0 [(Action.Check, Node.terminalShowdown 3)]
    rfl (by decide)

/-- C10: at a chance node, the argument `play` accepts is the card's integer
identifier itself — the bit position set in the `possible_cards` bitmask —
not a dense position into the child list: every card whose bit is set is
accepted, and the interpreter advances to the child in which that card is
dealt. -/
theorem claim_c10 (it : Interpreter) (pairs : List (Card × Node)) (c : Nat)
    (h1 : it.node = Node.chance pairs)
    (h2 : it.possible_cards &&& (1 <<< c) ≠ 0) :
    ∃ child, lookupCard pairs c = some child ∧
      it.play c = (none, { it with node := child, path := it.path ++ [c] }) := by
  simp only [Interpreter.possible_cards, h1] at h2
  have hsome := (mask_lookup pairs c).mp h2
  rcases h : lookupCard pairs c with _ | child
  · rw [h] at hsome; simp at hsome
  · refine ⟨child, rfl, ?_⟩
    simp only [Interpreter.play, h1, h]

/-- A small hand-made interpreter state positioned at a chance node offering
the single card 7. -/
def witnessItChance : Interpreter :=
  { node := Node.chance [(7, Node.terminalShowdown 5)],
    path := [], weights := [], threshold := 0 }

/-- Witness for C10: card 7's bit is set and playing 7 advances to its
child. -/
theorem claim_c10_witness :
    ∃ child, lookupCard [(7, Node.terminalShowdown 5)] 7 = some child ∧
      witnessItChance.play 7
        = (none, { witnessItChance with node := child, path := witnessItChance.path ++ [7] }) :=
  claim_c10 witnessItChance [(7, Node.terminalShowdown 5)] 7 rfl (by decide)

/-- C1: in the game built from the configuration with board `Td9d6h`, pot
200, stack 900 and 50%-pot bet sizes, the root offers the out-of-position
player `[Check, Bet 100]`; after the opening check (index 0, the `Check`
action) the in-position player is to act and `available_actions` returns
exactly `[Check, Bet 100]`, in that order. -/
theorem claim_c1 :
    withConfig scenarioConfig = Except.ok scenarioGame ∧
    (Interpreter.new scenarioGame 0).available_actions
      = [Action.Check, Action.Bet 100] ∧
    ((Interpreter.new scenarioGame 0).play 0).1 = none ∧
    (((Interpreter.new scenarioGame 0).play 0).2).current_player = some 1 ∧
    (((Interpreter.new scenarioGame 0).play 0).2).available_actions
      = [Action.Check, Action.Bet 100] := by
  refine ⟨?_, rfl, rfl, rfl, rfl⟩
  simp [withConfig, rangeWeight, zeroConflicts, GameConfig.board,
    scenarioConfig, NOT_DEALT, scenarioGame, buildTree]

/-- C2: in the same game, after the out-of-position player checks (index 0)
and the in-position player bets 100 (index 1, the `Bet 100` action), the
out-of-position player is to act and `available_actions` returns exactly a
fold, a call, and the configured raise size 300 — which is at most the
remaining effective stack. -/
theorem claim_c2 :
    ((((Interpreter.new scenarioGame 0).play 0).2).play 1).1 = none ∧
    (((((Interpreter.new scenarioGame 0).play 0).2).play 1).2).current_player = some 0 ∧
    (((((Interpreter.new scenarioGame 0).play 0).2).play 1).2).available_actions
      = [Action.Fold, Action.Call, Action.Raise 300] ∧
    300 ≤ scenarioConfig.effective_stack := by
  refine ⟨rfl, rfl, rfl, ?_⟩
  decide

end PostflopSolver
